import Mathlib

/-!
Shallow embedding of the retrieval-rerank-validate pipeline of the
`poc-api-spec-rag` repository, together with theorems settling the frozen
claims about its specification.

Conventions of the embedding:
* Python floats are modelled as rationals (`ℚ`); every numeric literal in the
  embedded code (0.4, 0.3, 0.8, ...) is exact in `ℚ`.
* Python strings are Lean `String`s; where character-level reasoning is needed
  (split / join / strip) the helpers below operate on `List Char` and are
  lifted through `String.toList` / `List.asString`.
* Python dictionaries with a fixed key set are records; open-keyed
  dictionaries (filter mappings) are association lists looked up by first
  matching key, with `{**a, **b}` merge translated by `pyMergeDicts`.
* Fallible code is `Except` / `Option`; an exception raised by a Python
  function is the `.error` / `.none` branch.
* Regular-expression character classes `\d` / `\s` are modelled by
  `Char.isDigit` / `Char.isWhitespace`.
-/

/-! ## Python string primitives -/

/-- Python `str.strip()` on a character list: drop leading and trailing
whitespace. -/
def pyStripCh (cs : List Char) : List Char :=
  ((cs.dropWhile Char.isWhitespace).reverse.dropWhile Char.isWhitespace).reverse

/-- Python `str.strip()` on a string. -/
def pyStrip (s : String) : String :=
  (pyStripCh s.toList).asString

/-- Python `s.split(",")` on a character list: split at every comma, keeping
empty segments (`"".split(",") == [""]`). -/
def splitCommaCh : List Char → List (List Char)
  | [] => [[]]
  | c :: cs =>
    if c = ',' then [] :: splitCommaCh cs
    else
      match splitCommaCh cs with
      | [] => [[c]]
      | t :: ts => (c :: t) :: ts

/-- Python `",".join(parts)` on character lists. -/
def joinCommaCh : List (List Char) → List Char
  | [] => []
  | [t] => t
  | t :: ts => t ++ ',' :: joinCommaCh ts

/-- Python `s.split(",")` on strings. -/
def pySplitComma (s : String) : List String :=
  (splitCommaCh s.toList).map List.asString

/-- Python `",".join(parts)` on strings. -/
def pyJoinComma (parts : List String) : String :=
  (joinCommaCh (parts.map String.toList)).asString

/-- Python `needle in hay` substring membership test. -/
def pyContains (hay needle : String) : Bool :=
  decide (needle.toList <:+: hay.toList)

/-- Python `s.startswith(pre)`. -/
def pyStartsWith (s pre : String) : Bool :=
  decide (pre.toList <+: s.toList)

/-- Python `s.split()` (no separator): whitespace-delimited words, discarding
empty runs.  `acc` is the reversed current word. -/
def pyWordsAux : List Char → List Char → List (List Char)
  | acc, [] => if acc.isEmpty then [] else [acc.reverse]
  | acc, c :: cs =>
    if c.isWhitespace then
      if acc.isEmpty then pyWordsAux [] cs else acc.reverse :: pyWordsAux [] cs
    else pyWordsAux (c :: acc) cs

/-- Python `s.split()` on strings. -/
def pyWords (s : String) : List String :=
  (pyWordsAux [] s.toList).map List.asString

/-- Python `" ".join(parts)`. -/
def pyJoinSpace (parts : List String) : String :=
  String.intercalate " " parts

/-- Python truthy `or` on an optional string with a default
(`x or d`: `None` and `""` both fall back to `d`). -/
def pyOrStr (x : Option String) (d : String) : String :=
  match x with
  | none => d
  | some s => if s = "" then d else s

/-- Python `x or None` on a string: `""` becomes `None`. -/
def pyOrNone (s : String) : Option String :=
  if s = "" then none else some s

/-! ## Data model (src/core/models.py) -/

/-- OpenAPI `Parameter` object (the fields the verified code reads). -/
structure Parameter where
  name : String
  in_ : String
  description : Option String := none
  /-- `Optional[bool] = False`; the code only ever tests its truthiness, so
  `None` and `False` are identified. -/
  required : Bool := false
  deriving DecidableEq

/-- OpenAPI `RequestBody` object; `content` keeps the ordered media-type keys
of the `content` mapping (its values are never read by the verified code). -/
structure RequestBody where
  description : Option String := none
  content : List String
  required : Bool := false
  deriving DecidableEq

/-- OpenAPI `Response` object (`content` is never read by the verified code). -/
structure Response where
  description : String
  deriving DecidableEq

/-- OpenAPI `Operation` object. `security` holds the requirement list; only
its presence and length are ever read. -/
structure Operation where
  summary : Option String := none
  description : Option String := none
  operationId : Option String := none
  tags : Option (List String) := none
  parameters : Option (List Parameter) := none
  requestBody : Option RequestBody := none
  responses : List (String × Response)
  security : Option (List (List (String × List String))) := none
  deriving DecidableEq

/-- OpenAPI `PathItem`: up to one operation per verb, absent verbs are `none`. -/
structure PathItem where
  get : Option Operation := none
  post : Option Operation := none
  put : Option Operation := none
  delete : Option Operation := none
  patch : Option Operation := none
  options : Option Operation := none
  head : Option Operation := none
  deriving DecidableEq

/-- `OpenAPISpec`: `paths` is the insertion-ordered `path → PathItem` mapping
(keys unique, as in a Python dict). -/
structure OpenAPISpec where
  openapi : String
  paths : List (String × PathItem)
  deriving DecidableEq

/-- `ChunkMetadata` record. -/
structure ChunkMetadata where
  endpoint : String
  method : String
  tags : List String := []
  operation_id : Option String := none
  requires_auth : Bool := false
  content_type : Option String := none
  deriving DecidableEq

/-- `EndpointChunk`: the atomic retrievable unit. -/
structure EndpointChunk where
  chunk_id : String
  method : String
  path : String
  summary : Option String := none
  description : Option String := none
  parameters : List Parameter := []
  request_body : Option RequestBody := none
  responses : List (String × Response) := []
  metadata : ChunkMetadata
  deriving DecidableEq

/-- `RetrievalResult`: a chunk, its similarity score and a 1-based rank. -/
structure RetrievalResult where
  chunk : EndpointChunk
  similarity_score : ℚ
  rank : Nat
  deriving DecidableEq

/-- `ConfidenceScore` record. -/
structure ConfidenceScore where
  similarity : ℚ
  spec_completeness : ℚ
  validation_passed : Bool
  overall : ℚ
  level : String
  deriving DecidableEq

/-- `ConfidenceScore.calculate` (src/core/models.py, lines 216-243). -/
def ConfidenceScore.calculate (similarity spec_completeness : ℚ)
    (validation_passed : Bool) : ConfidenceScore :=
  let overall : ℚ :=
    similarity * 0.4 + spec_completeness * 0.3 +
      (if validation_passed then (1 : ℚ) else 0) * 0.3
  let level : String :=
    if overall > 0.8 then "high"
    else if overall > 0.6 then "medium"
    else "low"
  { similarity := similarity
    spec_completeness := spec_completeness
    validation_passed := validation_passed
    overall := overall
    level := level }

/-- `ConfidenceScorer.calculate_score` (src/validation/confidence_scorer.py):
`validation_passed = syntax_valid and spec_valid`, then delegates to
`ConfidenceScore.calculate`. -/
def ConfidenceScorer.calculate_score (similarity spec_completeness : ℚ)
    (syntax_valid spec_valid : Bool) : ConfidenceScore :=
  ConfidenceScore.calculate similarity spec_completeness
    (syntax_valid && spec_valid)

/-! ## Claim C1 -/

/-- C1: for similarity and spec_completeness in [0,1] and any boolean
`validation_passed`, `ConfidenceScore.calculate` returns
`overall = similarity*0.4 + spec_completeness*0.3 + (1 if validation_passed
else 0)*0.3`, with `overall ∈ [0,1]`; the level is `"high"` iff
`overall > 0.8`, `"medium"` iff `0.6 < overall ≤ 0.8` and `"low"` iff
`overall ≤ 0.6`; in particular `overall = 0.8` gives `"medium"` and
`overall = 0.6` gives `"low"`.  Determinism is immediate from `calculate`
being a function of exactly these three inputs. -/
theorem confidence_calculate_spec (s c : ℚ) (b : Bool)
    (hs0 : 0 ≤ s) (hs1 : s ≤ 1) (hc0 : 0 ≤ c) (hc1 : c ≤ 1) :
    ∀ r, r = ConfidenceScore.calculate s c b →
    r.overall = s * 0.4 + c * 0.3 + (if b then (1 : ℚ) else 0) * 0.3 ∧
    0 ≤ r.overall ∧ r.overall ≤ 1 ∧
    (r.level = "high" ↔ r.overall > 0.8) ∧
    (r.level = "medium" ↔ 0.6 < r.overall ∧ r.overall ≤ 0.8) ∧
    (r.level = "low" ↔ r.overall ≤ 0.6) ∧
    (r.overall = 0.8 → r.level = "medium") ∧
    (r.overall = 0.6 → r.level = "low") := by
  rintro r rfl
  have hb0 : (0 : ℚ) ≤ (if b then (1 : ℚ) else 0) := by cases b <;> norm_num
  have hb1 : (if b then (1 : ℚ) else 0) ≤ 1 := by cases b <;> norm_num
  refine ⟨rfl, ?_, ?_, ?_, ?_, ?_, ?_, ?_⟩ <;>
    simp only [ConfidenceScore.calculate] <;>
    split_ifs <;>
    try (first
      | linarith
      | (constructor <;> intro h <;> first | rfl | linarith | simp_all))
  all_goals simp_all <;> linarith

/-- Witness for C1 at the 0.8 boundary: similarity 1/2, completeness 1,
validation passed gives overall exactly 0.8 and level "medium". -/
theorem confidence_calculate_spec_witness :
    (0 : ℚ) ≤ 1/2 ∧
    (ConfidenceScore.calculate (1/2) 1 true).overall = 0.8 ∧
    (ConfidenceScore.calculate (1/2) 1 true).level = "medium" := by
  have h := confidence_calculate_spec (1/2) 1 true (by norm_num) (by norm_num)
    (by norm_num) (by norm_num) (ConfidenceScore.calculate (1/2) 1 true) rfl
  have hov : (ConfidenceScore.calculate (1/2) 1 true).overall = 0.8 := by
    rw [h.1]; norm_num
  exact ⟨by norm_num, hov, h.2.2.2.2.2.2.1 hov⟩

/-! ## Python case helpers -/

/-- Python `str.upper()` (character-wise). -/
def pyUpper (s : String) : String :=
  (s.toList.map Char.toUpper).asString

/-- Python `str.lower()` (character-wise). -/
def pyLower (s : String) : String :=
  (s.toList.map Char.toLower).asString

/-! ## Endpoint chunker (src/ingestion/chunker.py) -/

namespace EndpointChunker

/-- `_requires_auth`: Python tests the truthiness of `operation.security`
(`None` and `[]` are falsy) and then returns `len(security) > 0`. -/
def requiresAuth (op : Operation) : Bool :=
  match op.security with
  | some sec => if sec.isEmpty then false else decide (0 < sec.length)
  | none => false

/-- `_get_content_type`: first media-type key of the request body content
mapping, defaulting to `application/json`. -/
def getContentType (op : Operation) : String :=
  match op.requestBody with
  | some rb =>
    match rb.content with
    | ct :: _ => ct
    | [] => "application/json"
  | none => "application/json"

/-- `_create_chunk`. -/
def createChunk (path method : String) (op : Operation) : EndpointChunk :=
  { chunk_id := method ++ "_" ++ path
    method := method
    path := path
    summary := op.summary
    description := op.description
    parameters := op.parameters.getD []
    request_body := op.requestBody
    responses := op.responses
    metadata :=
      { endpoint := path
        method := method
        tags := op.tags.getD []
        operation_id := op.operationId
        requires_auth := requiresAuth op
        content_type := some (getContentType op) } }

/-- The verb table built inside `chunk_spec`, in source (insertion) order. -/
def verbOps (item : PathItem) : List (String × Option Operation) :=
  [("get", item.get), ("post", item.post), ("put", item.put),
   ("delete", item.delete), ("patch", item.patch),
   ("options", item.options), ("head", item.head)]

/-- Chunks produced for one `paths` entry: one per non-null verb operation,
with the verb upper-cased. -/
def pathChunks (path : String) (item : PathItem) : List EndpointChunk :=
  (verbOps item).filterMap
    (fun mo => mo.2.map (fun op => createChunk path (pyUpper mo.1) op))

/-- `chunk_spec`: the concatenation over all paths, failing with a
chunking error when it is empty. -/
def chunkSpec (spec : OpenAPISpec) : Except String (List EndpointChunk) :=
  let chunks := spec.paths.flatMap (fun pi => pathChunks pi.1 pi.2)
  if chunks.isEmpty then .error "No chunks created from spec"
  else .ok chunks

/-- Number of non-null verb operations declared in the spec. -/
def totalOps (spec : OpenAPISpec) : Nat :=
  (spec.paths.map
    (fun pi => ((verbOps pi.2).filter (fun mo => mo.2.isSome)).length)).sum

/-- Upper-cased verbs present on one path item, in the fixed verb order. -/
def presentMethods (item : PathItem) : List String :=
  (verbOps item).filterMap (fun mo => mo.2.map (fun _ => pyUpper mo.1))

/-- The fixed set of upper-cased verbs. -/
def upperMethods : List String :=
  ["GET", "POST", "PUT", "DELETE", "PATCH", "OPTIONS", "HEAD"]

end EndpointChunker

namespace EndpointChunker

/-- The filterMap used by the chunker keeps exactly one element per `some`
operation. -/
lemma length_filterMap_opt {α β γ : Type} (l : List (α × Option β))
    (g : α × Option β → β → γ) :
    (l.filterMap (fun mo => mo.2.map (g mo))).length
      = (l.filter (fun mo => mo.2.isSome)).length := by
  induction l with
  | nil => rfl
  | cons hd tl ih =>
    cases h : hd.2 <;>
      simp [List.filterMap_cons, List.filter_cons, h, ih]

/-- The filterMap used by the chunker yields a sublist of the corresponding
plain map. -/
lemma filterMap_opt_sublist {α β γ : Type} (l : List (α × Option β))
    (g : α → γ) :
    (l.filterMap (fun mo => mo.2.map (fun _ => g mo.1))).Sublist
      (l.map (fun mo => g mo.1)) := by
  induction l with
  | nil => simp
  | cons hd tl ih =>
    cases h : hd.2 with
    | none =>
      simp only [List.filterMap_cons, h, Option.map_none, List.map_cons]
      exact ih.cons _
    | some op =>
      simp only [List.filterMap_cons, h, Option.map_some, List.map_cons]
      exact ih.cons₂ _

lemma map_pathChunks (p : String) (item : PathItem) :
    (pathChunks p item).map (fun c => (c.method, c.path))
      = (presentMethods item).map (fun m => (m, p)) := by
  simp only [pathChunks, presentMethods, List.map_filterMap, Option.map_map]
  rfl

lemma length_pathChunks (p : String) (item : PathItem) :
    (pathChunks p item).length
      = ((verbOps item).filter (fun mo => mo.2.isSome)).length :=
  length_filterMap_opt _ _

lemma verbOps_map_upper (item : PathItem) :
    (verbOps item).map (fun mo => pyUpper mo.1) = upperMethods := by
  simp only [verbOps, List.map_cons, List.map_nil, upperMethods]
  decide

lemma mem_presentMethods {item : PathItem} {m : String}
    (h : m ∈ presentMethods item) : m ∈ upperMethods := by
  have hsub : (presentMethods item).Sublist
      ((verbOps item).map (fun mo => pyUpper mo.1)) :=
    filterMap_opt_sublist _ _
  rw [verbOps_map_upper] at hsub
  exact hsub.mem h

lemma presentMethods_nodup (item : PathItem) : (presentMethods item).Nodup := by
  have hsub : (presentMethods item).Sublist
      ((verbOps item).map (fun mo => pyUpper mo.1)) :=
    filterMap_opt_sublist _ _
  rw [verbOps_map_upper] at hsub
  exact hsub.nodup (by decide)

lemma no_underscore_of_mem_upperMethods {m : String} (h : m ∈ upperMethods) :
    '_' ∉ m.toList := by
  fin_cases h <;> decide

/-- Splitting a chunk id at the underscore that follows the method is
unambiguous as long as the method itself contains no underscore. -/
lemma append_underscore_inj_ch (m₁ m₂ p₁ p₂ : List Char)
    (h₁ : '_' ∉ m₁) (h₂ : '_' ∉ m₂)
    (h : m₁ ++ '_' :: p₁ = m₂ ++ '_' :: p₂) : m₁ = m₂ ∧ p₁ = p₂ := by
  induction m₁ generalizing m₂ with
  | nil =>
    cases m₂ with
    | nil => simpa using h
    | cons c cs =>
      simp only [List.nil_append, List.cons_append, List.cons.injEq] at h
      exact absurd (h.1 ▸ List.mem_cons_self c cs) (h.1 ▸ h₂)
  | cons c cs ih =>
    cases m₂ with
    | nil =>
      simp only [List.nil_append, List.cons_append, List.cons.injEq] at h
      exact absurd (h.1 ▸ List.mem_cons_self c cs) (h.1 ▸ h₁)
    | cons d ds =>
      simp only [List.cons_append, List.cons.injEq] at h
      have h₁' : '_' ∉ cs := fun hm => h₁ (List.mem_cons_of_mem _ hm)
      have h₂' : '_' ∉ ds := fun hm => h₂ (List.mem_cons_of_mem _ hm)
      obtain ⟨rfl, rfl⟩ := ih ds h₁' h₂' h.2
      exact ⟨by rw [h.1], rfl⟩

lemma chunkId_inj {m₁ m₂ p₁ p₂ : String}
    (h₁ : '_' ∉ m₁.toList) (h₂ : '_' ∉ m₂.toList)
    (h : m₁ ++ "_" ++ p₁ = m₂ ++ "_" ++ p₂) : m₁ = m₂ ∧ p₁ = p₂ := by
  have hdata : m₁.data ++ '_' :: p₁.data = m₂.data ++ '_' :: p₂.data := by
    have := congrArg String.data h
    simpa [String.data_append] using this
  have := append_underscore_inj_ch m₁.data m₂.data p₁.data p₂.data h₁ h₂ hdata
  exact ⟨String.ext this.1, String.ext this.2⟩

/-- Structure of every chunk emitted for a spec: its id is
`method ++ "_" ++ path` and its method is one of the seven upper-cased
verbs. -/
lemma mem_chunks_shape {spec : OpenAPISpec} {c : EndpointChunk}
    (h : c ∈ spec.paths.flatMap (fun pi => pathChunks pi.1 pi.2)) :
    c.chunk_id = c.method ++ "_" ++ c.path ∧ c.method ∈ upperMethods := by
  rcases List.mem_flatMap.mp h with ⟨pi, _hpi, hc⟩
  rcases List.mem_filterMap.mp hc with ⟨mo, hmo, hget⟩
  rcases Option.map_eq_some'.mp hget with ⟨op, _hop, rfl⟩
  refine ⟨rfl, ?_⟩
  have : mo.1 ∈ (verbOps pi.2).map Prod.fst := List.mem_map_of_mem _ hmo
  have hfst : mo.1 ∈ ["get", "post", "put", "delete", "patch",
      "options", "head"] := by
    simpa [verbOps] using this
  show pyUpper mo.1 ∈ upperMethods
  simp only [List.mem_cons, List.not_mem_nil, or_false] at hfst
  rcases hfst with h | h | h | h | h | h | h <;> rw [h] <;> decide

end EndpointChunker

open EndpointChunker in
/-- C6: for every valid `OpenAPISpec` (unique path keys — a Python dict
invariant — and at least one declared operation), `chunk_spec` succeeds and
returns exactly one chunk per non-null verb operation: the chunk count is the
sum over paths of non-null verb operations, every `chunk_id`
(`"{METHOD}_{path}"`) is unique, and the chunks appear in path-then-verb
enumeration order with verb order get, post, put, delete, patch, options,
head (expressed by the `(method, path)` projection below). -/
theorem chunker_chunkSpec_spec (spec : OpenAPISpec)
    (hkeys : spec.paths.Pairwise (fun a b => a.1 ≠ b.1))
    (hops : 0 < totalOps spec) :
    ∃ chunks, chunkSpec spec = .ok chunks ∧
      chunks.length = totalOps spec ∧
      (chunks.map (fun c => c.chunk_id)).Nodup ∧
      chunks.map (fun c => (c.method, c.path)) =
        spec.paths.flatMap
          (fun pi => (presentMethods pi.2).map (fun m => (m, pi.1))) := by
  set chunks := spec.paths.flatMap (fun pi => pathChunks pi.1 pi.2) with hchunks
  have hlen : chunks.length = totalOps spec := by
    have h1 : chunks.length
        = (spec.paths.map (fun pi => (pathChunks pi.1 pi.2).length)).sum := by
      rw [hchunks]
      simp [List.flatMap, List.length_flatten, List.map_map, Function.comp_def]
    rw [h1]
    unfold totalOps
    congr 1
    exact List.map_congr_left (fun pi _ => length_pathChunks pi.1 pi.2)
  have horder : chunks.map (fun c => (c.method, c.path)) =
      spec.paths.flatMap
        (fun pi => (presentMethods pi.2).map (fun m => (m, pi.1))) := by
    rw [hchunks, List.map_flatMap]
    exact List.flatMap_congr (fun pi _ => map_pathChunks pi.1 pi.2)
  have hkeysN : (spec.paths.flatMap
      (fun pi => (presentMethods pi.2).map (fun m => (m, pi.1)))).Nodup := by
    rw [List.nodup_flatMap]
    refine ⟨fun pi _ => ?_, ?_⟩
    · exact (presentMethods_nodup pi.2).map
        (fun a b hab => (Prod.ext_iff.mp hab).1)
    · refine hkeys.imp ?_
      intro a b hne x hxa hxb
      rcases List.mem_map.mp hxa with ⟨m, _, rfl⟩
      rcases List.mem_map.mp hxb with ⟨m2, _, heq⟩
      exact hne (by simpa using congrArg Prod.snd heq.symm)
  have hmemkey : ∀ k ∈ spec.paths.flatMap
      (fun pi => (presentMethods pi.2).map (fun m => (m, pi.1))),
      k.1 ∈ upperMethods := by
    intro k hk
    rcases List.mem_flatMap.mp hk with ⟨pi, _, hk2⟩
    rcases List.mem_map.mp hk2 with ⟨m, hm, rfl⟩
    exact mem_presentMethods hm
  have hids : (chunks.map (fun c => c.chunk_id)).Nodup := by
    have hform : chunks.map (fun c => c.chunk_id) =
        (chunks.map (fun c => (c.method, c.path))).map
          (fun k => k.1 ++ "_" ++ k.2) := by
      rw [List.map_map]
      exact List.map_congr_left (fun c hc => (mem_chunks_shape hc).1)
    rw [hform, horder]
    refine List.Nodup.map_on ?_ hkeysN
    intro x hx y hy hxy
    have h := chunkId_inj
      (no_underscore_of_mem_upperMethods (hmemkey x hx))
      (no_underscore_of_mem_upperMethods (hmemkey y hy)) hxy
    exact Prod.ext h.1 h.2
  have hne : chunks.isEmpty = false := by
    cases he : chunks.isEmpty
    · rfl
    · exfalso
      have h0 := List.isEmpty_iff_length_eq_zero.mp he
      omega
  refine ⟨chunks, ?_, hlen, hids, horder⟩
  simp only [chunkSpec, ← hchunks, hne]
  simp

/-- The §8 scenario spec: one path `/items/{id}` with GET and POST. -/
def specW : OpenAPISpec :=
  { openapi := "3.0.0"
    paths := [("/items/{id}",
      { get := some { summary := some "Get item"
                      responses := [("200", { description := "OK" })] }
        post := some { summary := some "Create item"
                       responses := [("201", { description := "Created" })] } })] }

open EndpointChunker in
/-- Witness for C6: the scenario spec satisfies both hypotheses and the
theorem applies; moreover its two chunk ids evaluate to
`GET_/items/{id}` and `POST_/items/{id}`. -/
theorem chunker_chunkSpec_spec_witness :
    (specW.paths.Pairwise (fun a b => a.1 ≠ b.1) ∧ 0 < totalOps specW ∧
      ∃ cs, chunkSpec specW = .ok cs ∧
        cs.map (fun c => c.chunk_id)
          = ["GET_/items/{id}", "POST_/items/{id}"]) ∧
    (∃ chunks, chunkSpec specW = .ok chunks ∧
      chunks.length = totalOps specW ∧
      (chunks.map (fun c => c.chunk_id)).Nodup ∧
      chunks.map (fun c => (c.method, c.path)) =
        specW.paths.flatMap
          (fun pi => (presentMethods pi.2).map (fun m => (m, pi.1)))) :=
  ⟨⟨by simp [specW], by decide, ⟨_, rfl, by decide⟩⟩,
    chunker_chunkSpec_spec specW (by simp [specW]) (by decide)⟩

/-! ## Vector index metadata (src/ingestion/indexer.py) and
retriever (src/retrieval/vector_search.py) -/

/-- The flattened metadata record stored per chunk in the vector store
(`ChromaIndexer._chunk_to_metadata`); every field is always present in the
stored mapping, so reads with `dict.get` always hit the stored value. -/
structure StoredMeta where
  endpoint : String
  method : String
  tags : String
  operation_id : String
  requires_auth : Bool
  content_type : String
  summary : String
  deriving DecidableEq

/-- `ChromaIndexer._chunk_to_metadata` (lines 88-105). -/
def ChromaIndexer.chunkToMetadata (chunk : EndpointChunk) : StoredMeta :=
  { endpoint := chunk.metadata.endpoint
    method := chunk.metadata.method
    tags := pyJoinComma chunk.metadata.tags
    operation_id := pyOrStr chunk.metadata.operation_id ""
    requires_auth := chunk.metadata.requires_auth
    content_type := pyOrStr chunk.metadata.content_type "application/json"
    summary := pyOrStr chunk.summary "" }

namespace VectorSearcher

/-- `_reconstruct_chunk` (lines 161-208): rebuild a reduced `EndpointChunk`
from stored metadata; the `document` argument is accepted and unused, as in
the source. -/
def reconstructChunk (chunk_id : String) (metadata : StoredMeta)
    (_document : String) : EndpointChunk :=
  let method := metadata.method
  let endpoint := metadata.endpoint
  let tags :=
    ((pySplitComma metadata.tags).map pyStrip).filter (fun t => t ≠ "")
  let chunk_metadata : ChunkMetadata :=
    { endpoint := endpoint
      method := method
      tags := tags
      operation_id := pyOrNone metadata.operation_id
      requires_auth := metadata.requires_auth
      content_type := some metadata.content_type }
  { chunk_id := chunk_id
    method := method
    path := endpoint
    summary := pyOrNone metadata.summary
    description := none
    parameters := []
    request_body := none
    responses := []
    metadata := chunk_metadata }

/-- One row of a store query result: the code zips the parallel store
`ids` / `distances` / `metadatas` / `documents` lists positionally; the
zipped rows are modelled directly. -/
structure StoreRow where
  id : String
  distance : ℚ
  metadata : StoredMeta
  document : String
  deriving DecidableEq

/-- The distance-to-similarity conversion of `_parse_results`:
`similarity = 1 - (distance / 2)`. -/
def toSimilarity (distance : ℚ) : ℚ := 1 - distance / 2

/-- The loop of `_parse_results` (lines 137-157): `rank` is assigned by
`enumerate(..., start=1)` over the raw rows, and the threshold `continue`
skips a row only after its rank was consumed. -/
def parseResultsAux (threshold : ℚ) : Nat → List StoreRow → List RetrievalResult
  | _, [] => []
  | rank, row :: rest =>
    let sim := toSimilarity row.distance
    if sim < threshold then parseResultsAux threshold (rank + 1) rest
    else
      { chunk := reconstructChunk row.id row.metadata row.document
        similarity_score := sim
        rank := rank } :: parseResultsAux threshold (rank + 1) rest

/-- `_parse_results`; `threshold` models `settings.SIMILARITY_THRESHOLD`. -/
def parseResults (threshold : ℚ) (rows : List StoreRow) :
    List RetrievalResult :=
  parseResultsAux threshold 1 rows

end VectorSearcher

/-- `Settings.SIMILARITY_THRESHOLD` default value (src/core/config.py). -/
def SIMILARITY_THRESHOLD : ℚ := 0.5

namespace VectorSearcher

/-- Every result kept by the parse loop has similarity at least the
threshold. -/
lemma parseResultsAux_sim_ge {threshold : ℚ} :
    ∀ (rows : List StoreRow) (pos : Nat) (r : RetrievalResult),
      r ∈ parseResultsAux threshold pos rows →
      threshold ≤ r.similarity_score := by
  intro rows
  induction rows with
  | nil => intro pos r h; simp [parseResultsAux] at h
  | cons row rest ih =>
    intro pos r h
    simp only [parseResultsAux] at h
    split at h
    · exact ih (pos + 1) r h
    · rcases List.mem_cons.mp h with rfl | h2
      · simpa using le_of_not_gt (by assumption)
      · exact ih (pos + 1) r h2

/-- The rank of every kept result points back at its originating raw row. -/
lemma parseResultsAux_rank_mem {threshold : ℚ} :
    ∀ (rows : List StoreRow) (pos : Nat) (r : RetrievalResult),
      r ∈ parseResultsAux threshold pos rows →
      pos ≤ r.rank ∧
      ∃ row, rows.get? (r.rank - pos) = some row ∧
        r.similarity_score = toSimilarity row.distance ∧
        r.chunk = reconstructChunk row.id row.metadata row.document := by
  intro rows
  induction rows with
  | nil => intro pos r h; simp [parseResultsAux] at h
  | cons row rest ih =>
    intro pos r h
    simp only [parseResultsAux] at h
    have step : r ∈ parseResultsAux threshold (pos + 1) rest →
        pos ≤ r.rank ∧
        ∃ row2, (row :: rest).get? (r.rank - pos) = some row2 ∧
          r.similarity_score = toSimilarity row2.distance ∧
          r.chunk = reconstructChunk row2.id row2.metadata row2.document := by
      intro h2
      obtain ⟨hle, row2, hget, hsim, hch⟩ := ih (pos + 1) r h2
      refine ⟨by omega, row2, ?_, hsim, hch⟩
      have hidx : r.rank - pos = (r.rank - (pos + 1)) + 1 := by omega
      rw [hidx]
      simpa using hget
    split at h
    · exact step h
    · rcases List.mem_cons.mp h with rfl | h2
      · exact ⟨le_refl _, row, by simp, rfl, rfl⟩
      · exact step h2

/-- Ranks appear in strictly increasing (store) order. -/
lemma parseResultsAux_rank_sorted {threshold : ℚ} :
    ∀ (rows : List StoreRow) (pos : Nat),
      ((parseResultsAux threshold pos rows).map
        (fun r => r.rank)).Pairwise (· < ·) := by
  intro rows
  induction rows with
  | nil => intro pos; simp [parseResultsAux]
  | cons row rest ih =>
    intro pos
    simp only [parseResultsAux]
    split
    · exact ih (pos + 1)
    · rw [List.map_cons, List.pairwise_cons]
      refine ⟨?_, ih (pos + 1)⟩
      intro b hb
      rcases List.mem_map.mp hb with ⟨r, hr, rfl⟩
      have := (parseResultsAux_rank_mem rest (pos + 1) r hr).1
      show pos < r.rank
      omega

/-- If every row falls below the threshold, the loop keeps nothing. -/
lemma parseResultsAux_all_below {threshold : ℚ} :
    ∀ (rows : List StoreRow) (pos : Nat),
      (∀ row ∈ rows, toSimilarity row.distance < threshold) →
      parseResultsAux threshold pos rows = [] := by
  intro rows
  induction rows with
  | nil => intro pos _; rfl
  | cons row rest ih =>
    intro pos hall
    simp only [parseResultsAux]
    rw [if_pos (hall row (List.mem_cons_self _ _))]
    exact ih (pos + 1) (fun r hr => hall r (List.mem_cons_of_mem _ hr))

/-- With store-sorted (non-decreasing) distances the survivors form a prefix
and carry the contiguous ranks `pos, pos+1, ...`. -/
lemma parseResultsAux_sorted_ranks {threshold : ℚ} :
    ∀ (rows : List StoreRow) (pos : Nat),
      ((rows.map (fun row => row.distance)).Pairwise (· ≤ ·)) →
      (parseResultsAux threshold pos rows).map (fun r => r.rank)
        = List.range' pos (parseResultsAux threshold pos rows).length := by
  intro rows
  induction rows with
  | nil => intro pos _; rfl
  | cons row rest ih =>
    intro pos hsorted
    rw [List.map_cons, List.pairwise_cons] at hsorted
    simp only [parseResultsAux]
    split
    · have hall : ∀ r ∈ rest, toSimilarity r.distance < threshold := by
        intro r hr
        have hd : row.distance ≤ r.distance :=
          hsorted.1 _ (List.mem_map_of_mem _ hr)
        have : toSimilarity r.distance ≤ toSimilarity row.distance := by
          unfold toSimilarity; linarith
        linarith [‹toSimilarity row.distance < threshold›]
      rw [parseResultsAux_all_below rest (pos + 1) hall]
      rfl
    · rw [List.map_cons, List.length_cons, List.range'_succ]
      congr 1
      exact ih (pos + 1) hsorted.2

end VectorSearcher

section ClaimC8

open VectorSearcher

/-- C8: the retriever distance-to-similarity conversion maps distance 0 to
similarity 1, distance 2 to similarity 0 and distance 1 to similarity 1/2;
and for every store result list and configured threshold, no result with
similarity below the threshold appears in the retrieval output. -/
theorem retriever_similarity_floor :
    toSimilarity 0 = 1 ∧ toSimilarity 2 = 0 ∧ toSimilarity 1 = 1/2 ∧
    ∀ (threshold : ℚ) (rows : List StoreRow) (r : RetrievalResult),
      r ∈ parseResults threshold rows → threshold ≤ r.similarity_score := by
  refine ⟨by norm_num [toSimilarity], by norm_num [toSimilarity],
    by norm_num [toSimilarity], ?_⟩
  intro threshold rows r h
  exact parseResultsAux_sim_ge rows 1 r h

/-- A concrete stored-metadata record for witnesses. -/
def metaW : StoredMeta :=
  { endpoint := "/pay"
    method := "POST"
    tags := "payment"
    operation_id := ""
    requires_auth := true
    content_type := "application/json"
    summary := "Approve a payment" }

/-- A concrete store row at distance 0 for witnesses. -/
def rowW : StoreRow :=
  { id := "POST_/pay"
    distance := 0
    metadata := metaW
    document := "doc" }

/-- The single retrieval result produced from `rowW`. -/
def resW : RetrievalResult :=
  { chunk := reconstructChunk "POST_/pay" metaW "doc"
    similarity_score := 1
    rank := 1 }

/-- `parseResults` on the single row `rowW` keeps exactly `resW`. -/
lemma parseResults_rowW : parseResults (1/2) [rowW] = [resW] := by
  simp only [parseResults, parseResultsAux, rowW, resW, toSimilarity]
  norm_num

/-- Witness for C8 at threshold 1/2 on one store row at distance 0. -/
theorem retriever_similarity_floor_witness :
    resW ∈ parseResults (1/2) [rowW] ∧
    (1/2 : ℚ) ≤ resW.similarity_score :=
  ⟨parseResults_rowW ▸ List.mem_singleton.mpr rfl,
    retriever_similarity_floor.2.2.2 (1/2) [rowW] resW
      (parseResults_rowW ▸ List.mem_singleton.mpr rfl)⟩

end ClaimC8

section ClaimC2

open VectorSearcher

/-- A store row whose distance 3/2 gives similarity 1/4, below the 1/2
threshold. -/
def rowCE1 : StoreRow :=
  { id := "a"
    distance := 3/2
    metadata := metaW
    document := "" }

/-- A store row at distance 0 (similarity 1). -/
def rowCE2 : StoreRow :=
  { id := "b"
    distance := 0
    metadata := metaW
    document := "" }

/-- Counterexample to C2 as stated: with threshold 1/2 and raw store rows
`[rowCE1, rowCE2]` (distances 3/2 then 0), the first row is discarded and the
sole surviving result carries rank 2 — not the contiguous rank 1 the claim
requires, because the code assigns rank by `enumerate` over the raw rows
before the threshold `continue`. -/
theorem retriever_rank_counterexample :
    (parseResults (1/2) [rowCE1, rowCE2]).map (fun r => r.rank) = [2] ∧
    (parseResults (1/2) [rowCE1, rowCE2]).map (fun r => r.rank) ≠ [1] := by
  have h : (parseResults (1/2) [rowCE1, rowCE2]).map (fun r => r.rank)
      = [2] := by
    simp only [parseResults, parseResultsAux, rowCE1, rowCE2, toSimilarity]
    norm_num
  exact ⟨h, by rw [h]; simp⟩

/-- C2 (amended): the retriever converts each raw cosine distance `d` to
similarity `1 - d/2` and discards every result below the global similarity
threshold, but each surviving result keeps as rank its 1-based position in
the order returned by the store (so ranks are strictly increasing, not
necessarily contiguous); when the store distances are non-decreasing — the
order a vector store returns neighbors in — the survivors form a prefix and
the ranks are exactly the contiguous `1, ..., m`. -/
theorem retriever_parse_results_spec (threshold : ℚ) (rows : List StoreRow) :
    (∀ r ∈ parseResults threshold rows, threshold ≤ r.similarity_score) ∧
    (∀ r ∈ parseResults threshold rows,
      1 ≤ r.rank ∧
      ∃ row, rows.get? (r.rank - 1) = some row ∧
        r.similarity_score = toSimilarity row.distance ∧
        r.chunk = reconstructChunk row.id row.metadata row.document) ∧
    ((parseResults threshold rows).map (fun r => r.rank)).Pairwise (· < ·) ∧
    ((rows.map (fun row => row.distance)).Pairwise (· ≤ ·) →
      (parseResults threshold rows).map (fun r => r.rank)
        = List.range' 1 (parseResults threshold rows).length) :=
  ⟨fun r h => parseResultsAux_sim_ge rows 1 r h,
    fun r h => parseResultsAux_rank_mem rows 1 r h,
    parseResultsAux_rank_sorted rows 1,
    fun hs => parseResultsAux_sorted_ranks rows 1 hs⟩

/-- Witness for C2 (amended) on the sorted row list `[rowW, rowCE1]`
(distances 0 then 3/2): the distance hypothesis holds and the surviving
ranks are the contiguous `1, ..., m`. -/
theorem retriever_parse_results_spec_witness :
    (([rowW, rowCE1].map (fun row => row.distance)).Pairwise (· ≤ ·)) ∧
    (parseResults (1/2) [rowW, rowCE1]).map (fun r => r.rank)
      = List.range' 1 (parseResults (1/2) [rowW, rowCE1]).length := by
  have hs : (([rowW, rowCE1].map (fun row => row.distance)).Pairwise
      (· ≤ ·)) := by
    simp only [List.map_cons, List.map_nil, List.pairwise_cons,
      List.mem_cons, List.not_mem_nil]
    refine ⟨?_, ?_, ?_⟩ <;> intros <;> simp_all [rowW, rowCE1] <;> norm_num
  exact ⟨hs, (retriever_parse_results_spec (1/2) [rowW, rowCE1]).2.2.2 hs⟩

end ClaimC2

/-! ## Claim C7: metadata round trip -/

lemma splitCommaCh_no_comma (t : List Char) (h : ',' ∉ t) :
    splitCommaCh t = [t] := by
  induction t with
  | nil => rfl
  | cons c cs ih =>
    have hc : c ≠ ',' := fun hc => h (hc ▸ List.mem_cons_self c cs)
    have hcs : ',' ∉ cs := fun hm => h (List.mem_cons_of_mem _ hm)
    simp only [splitCommaCh, if_neg (fun hcc => hc hcc), ih hcs]

lemma splitCommaCh_append (t r : List Char) (h : ',' ∉ t) :
    splitCommaCh (t ++ ',' :: r) = t :: splitCommaCh r := by
  induction t with
  | nil => simp [splitCommaCh]
  | cons c cs ih =>
    have hc : c ≠ ',' := fun hc => h (hc ▸ List.mem_cons_self c cs)
    have hcs : ',' ∉ cs := fun hm => h (List.mem_cons_of_mem _ hm)
    simp only [List.cons_append, splitCommaCh, if_neg (fun hcc => hc hcc)]
    rw [show cs.append (',' :: r) = cs ++ ',' :: r from rfl, ih hcs]

lemma splitCommaCh_joinCommaCh (tss : List (List Char))
    (h : ∀ t ∈ tss, ',' ∉ t) (hne : tss ≠ []) :
    splitCommaCh (joinCommaCh tss) = tss := by
  induction tss with
  | nil => exact absurd rfl hne
  | cons t rest ih =>
    cases rest with
    | nil =>
      simp only [joinCommaCh]
      exact splitCommaCh_no_comma t (h t (List.mem_cons_self _ _))
    | cons t2 rest2 =>
      have hjoin : joinCommaCh (t :: t2 :: rest2)
          = t ++ ',' :: joinCommaCh (t2 :: rest2) := rfl
      rw [hjoin, splitCommaCh_append t _ (h t (List.mem_cons_self _ _)),
        ih (fun u hu => h u (List.mem_cons_of_mem _ hu)) (by simp)]

lemma toList_asString (l : List Char) : (l.asString).toList = l := rfl

lemma asString_toList (s : String) : (s.toList).asString = s := rfl

/-- Round trip of the stored tags string: joining with `","`, splitting back,
stripping and dropping empties recovers the original list, provided every tag
is nonempty, comma-free and has no surrounding whitespace. -/
lemma tags_roundtrip (ts : List String)
    (h : ∀ t ∈ ts, t ≠ "" ∧ pyStrip t = t ∧ ',' ∉ t.toList) :
    ((pySplitComma (pyJoinComma ts)).map pyStrip).filter (fun t => t ≠ "")
      = ts := by
  cases ts with
  | nil => decide
  | cons t0 rest =>
    have hsplit : pySplitComma (pyJoinComma (t0 :: rest)) = t0 :: rest := by
      unfold pySplitComma pyJoinComma
      rw [toList_asString,
        splitCommaCh_joinCommaCh ((t0 :: rest).map String.toList)
          (by
            intro u hu
            rcases List.mem_map.mp hu with ⟨s, hs, rfl⟩
            exact (h s hs).2.2)
          (by simp),
        List.map_map]
      have hid : (fun s => (String.toList s).asString) = fun s : String => s :=
        funext (fun s => asString_toList s)
      rw [show (List.asString ∘ String.toList) = fun s : String => s from
        funext (fun s => asString_toList s)]
      exact List.map_id _
    rw [hsplit]
    have hmap : (t0 :: rest).map pyStrip = t0 :: rest :=
      List.map_congr_left (fun t ht => (h t ht).2.1) |>.trans (List.map_id _)
    rw [hmap]
    refine List.filter_eq_self.mpr ?_
    intro t ht
    exact decide_eq_true (h t ht).1

section ClaimC7

open VectorSearcher ChromaIndexer

/-- A chunk whose single tag contains a comma. -/
def chunkCE : EndpointChunk :=
  { chunk_id := "GET_/a"
    method := "GET"
    path := "/a"
    responses := []
    metadata :=
      { endpoint := "/a"
        method := "GET"
        tags := ["a,b"]
        requires_auth := false
        content_type := some "application/json" } }

/-- Counterexample to C7 as stated: flattening `chunkCE` (whose tag list is
`["a,b"]`) and reconstructing yields tags `["a", "b"]`, so the round trip
does not preserve tags for every `EndpointChunk`. -/
theorem roundtrip_counterexample :
    (reconstructChunk chunkCE.chunk_id (chunkToMetadata chunkCE) "").metadata.tags
      = ["a", "b"] ∧
    (reconstructChunk chunkCE.chunk_id (chunkToMetadata chunkCE) "").metadata.tags
      ≠ chunkCE.metadata.tags := by
  constructor <;> decide

/-- C7 (amended): for every `EndpointChunk` whose `method`/`path` mirror its
metadata (as every chunker-produced chunk does), whose tags are nonempty,
comma-free and whitespace-trimmed, and whose `content_type` is a nonempty
string, flattening with `_chunk_to_metadata` and reconstructing with
`_reconstruct_chunk` preserves method, path, tags, `requires_auth` and
`content_type` exactly, while `description` becomes `None`, `parameters`
becomes the empty list and `responses` becomes the empty map. -/
theorem roundtrip_spec (ch : EndpointChunk) (doc : String)
    (hm : ch.method = ch.metadata.method)
    (hp : ch.path = ch.metadata.endpoint)
    (htags : ∀ t ∈ ch.metadata.tags,
      t ≠ "" ∧ pyStrip t = t ∧ ',' ∉ t.toList)
    (hct : ∃ s, ch.metadata.content_type = some s ∧ s ≠ "") :
    let ch' := reconstructChunk ch.chunk_id (chunkToMetadata ch) doc
    ch'.method = ch.method ∧ ch'.path = ch.path ∧
    ch'.metadata.tags = ch.metadata.tags ∧
    ch'.metadata.requires_auth = ch.metadata.requires_auth ∧
    ch'.metadata.content_type = ch.metadata.content_type ∧
    ch'.description = none ∧ ch'.parameters = [] ∧ ch'.responses = [] := by
  obtain ⟨s, hcts, hsne⟩ := hct
  refine ⟨hm.symm, hp.symm, ?_, rfl, ?_, rfl, rfl, rfl⟩
  · exact tags_roundtrip ch.metadata.tags htags
  · show some (pyOrStr ch.metadata.content_type "application/json")
      = ch.metadata.content_type
    rw [hcts]
    simp [pyOrStr, hsne]

/-- A well-formed chunk for the C7 witness. -/
def chunkRT : EndpointChunk :=
  { chunk_id := "POST_/pay"
    method := "POST"
    path := "/pay"
    summary := some "Approve a payment"
    description := some "Approves a pending payment"
    parameters := [{ name := "payment_id", in_ := "path", required := true }]
    responses := [("200", { description := "OK" })]
    metadata :=
      { endpoint := "/pay"
        method := "POST"
        tags := ["payment", "approval"]
        requires_auth := true
        content_type := some "application/json" } }

/-- Witness for C7 (amended) on `chunkRT`: all hypotheses hold concretely and
the round trip preserves the five fields while blanking the other three. -/
theorem roundtrip_spec_witness :
    (chunkRT.method = chunkRT.metadata.method ∧
     chunkRT.path = chunkRT.metadata.endpoint ∧
     (∀ t ∈ chunkRT.metadata.tags,
       t ≠ "" ∧ pyStrip t = t ∧ ',' ∉ t.toList) ∧
     chunkRT.metadata.content_type = some "application/json") ∧
    ((reconstructChunk chunkRT.chunk_id (chunkToMetadata chunkRT) "d").method
        = chunkRT.method ∧
      (reconstructChunk chunkRT.chunk_id (chunkToMetadata chunkRT) "d").path
        = chunkRT.path ∧
      (reconstructChunk chunkRT.chunk_id
        (chunkToMetadata chunkRT) "d").metadata.tags
        = chunkRT.metadata.tags ∧
      (reconstructChunk chunkRT.chunk_id
        (chunkToMetadata chunkRT) "d").metadata.requires_auth
        = chunkRT.metadata.requires_auth ∧
      (reconstructChunk chunkRT.chunk_id
        (chunkToMetadata chunkRT) "d").metadata.content_type
        = chunkRT.metadata.content_type ∧
      (reconstructChunk chunkRT.chunk_id
        (chunkToMetadata chunkRT) "d").description = none ∧
      (reconstructChunk chunkRT.chunk_id
        (chunkToMetadata chunkRT) "d").parameters = [] ∧
      (reconstructChunk chunkRT.chunk_id
        (chunkToMetadata chunkRT) "d").responses = []) :=
  ⟨⟨rfl, rfl, by decide, rfl⟩,
    roundtrip_spec chunkRT "d" rfl rfl (by decide)
      ⟨"application/json", rfl, by decide⟩⟩

end ClaimC7

/-! ## Query processor (src/retrieval/query_processor.py) -/

/-- `Settings.TOP_K` default value (src/core/config.py). -/
def TOP_K : Nat := 5

namespace QueryProcessor

/-- `_normalize_query`: strip, then collapse internal whitespace runs
(`" ".join(query.split())`). -/
def normalizeQuery (query : String) : String :=
  pyJoinSpace (pyWords (pyStrip query))

/-- The fixed bilingual method keyword table, in source (dict insertion)
order: post, get, put, delete, patch. -/
def methodKeywords : List (String × List String) :=
  [("post", ["등록", "생성", "추가", "post", "create"]),
   ("get", ["조회", "확인", "검색", "get", "read", "fetch"]),
   ("put", ["수정", "변경", "업데이트", "put", "update"]),
   ("delete", ["삭제", "제거", "취소", "delete", "remove", "cancel"]),
   ("patch", ["일부수정", "patch"])]

/-- The fixed bilingual tag keyword table, in source order. -/
def tagKeywords : List (String × List String) :=
  [("payment", ["결제", "payment", "pay"]),
   ("user", ["사용자", "유저", "회원", "user", "member"]),
   ("order", ["주문", "order"]),
   ("product", ["상품", "제품", "product", "item"])]

/-- `_extract_filters`: first method whose keyword set matches the
lower-cased query (upper-cased into the filter), then — independently —
first matching tag; both loops `break` on the first hit. -/
def extractFilters (query : String) : List (String × String) :=
  let queryLower := pyLower query
  let methodF :=
    match methodKeywords.find?
        (fun mk => mk.2.any (fun kw => pyContains queryLower kw)) with
    | some mk => [("method", pyUpper mk.1)]
    | none => []
  let tagF :=
    match tagKeywords.find?
        (fun tk => tk.2.any (fun kw => pyContains queryLower kw)) with
    | some tk => [("tags", tk.1)]
    | none => []
  methodF ++ tagF

/-- Python `{**a, **b}` dict merge on association lists: the keys of `a` in
order (their values overridden by `b` on collision), then the keys only in
`b`, in the order of `b`. -/
def pyMergeDicts (a b : List (String × String)) : List (String × String) :=
  a.map (fun kv =>
    (kv.1, match b.find? (fun kv2 => kv2.1 = kv.1) with
           | some kv2 => kv2.2
           | none => kv.2))
  ++ b.filter (fun kv => (a.find? (fun kv2 => kv2.1 = kv.1)).isNone)

end QueryProcessor

/-- Dictionary lookup: value of the first pair with the given key. -/
def dictLookup (l : List (String × String)) (k : String) : Option String :=
  (l.find? (fun kv => kv.1 = k)).map Prod.snd

/-- `QueryRequest` (pydantic): `top_k` is validated to lie in [1, 20]. -/
structure QueryRequest where
  query : String
  filters : Option (List (String × String)) := none
  top_k : Nat := 5
  deriving DecidableEq

/-- Lookup into the optional filter mapping of a request. -/
def QueryRequest.filterLookup (req : QueryRequest) (k : String) :
    Option String :=
  match req.filters with
  | some f => dictLookup f k
  | none => none

namespace QueryProcessor

/-- `top_k or settings.TOP_K` with Python truthiness (`None` and `0` both
fall back to the default). -/
def resolveTopK (top_k : Option Nat) : Nat :=
  match top_k with
  | some k => if k = 0 then TOP_K else k
  | none => TOP_K

/-- The `merged_filters` local of `process_query`:
`{**(filters or {}), **auto_filters}`, passed on as `None` when empty. -/
def mergedFilters (query : String)
    (filters : Option (List (String × String))) :
    Option (List (String × String)) :=
  if (pyMergeDicts (filters.getD [])
      (extractFilters (normalizeQuery query))).isEmpty then none
  else some (pyMergeDicts (filters.getD [])
    (extractFilters (normalizeQuery query)))

/-- `process_query`: rejects empty/whitespace-only queries with a retrieval
error, normalizes the query, auto-extracts filters, merges
`{**(filters or {}), **auto_filters}`, and applies the top-k default with
Python truthiness (`top_k or settings.TOP_K`); the pydantic `QueryRequest`
constructor rejects a `top_k` outside [1, 20]. -/
def processQuery (query : String)
    (filters : Option (List (String × String)))
    (top_k : Option Nat) : Except String QueryRequest :=
  if query = "" ∨ pyStrip query = "" then .error "Query cannot be empty"
  else if 1 ≤ resolveTopK top_k ∧ resolveTopK top_k ≤ 20 then
    .ok { query := normalizeQuery query
          filters := mergedFilters query filters
          top_k := resolveTopK top_k }
  else .error "top_k out of range"

end QueryProcessor

namespace QueryProcessor

/-- Filtering by a predicate implied by the search predicate does not change
`find?`. -/
lemma find?_filter_of_imp {α : Type} (p q : α → Bool) (l : List α)
    (h : ∀ x, p x = true → q x = true) :
    (l.filter q).find? p = l.find? p := by
  induction l with
  | nil => rfl
  | cons x xs ih =>
    cases hp : p x with
    | true =>
      rw [List.filter_cons]
      rw [h x hp]
      simp [List.find?_cons, hp, ih]
    | false =>
      rw [List.filter_cons]
      cases hq : q x with
      | true => simp [List.find?_cons, hp, ih]
      | false => simp [List.find?_cons, hp, ih]

/-- Lookup into a Python `{**a, **b}` merge: a key set by `b` always resolves
to the value from `b`; otherwise the lookup falls back to `a`. -/
lemma dictLookup_pyMergeDicts (a b : List (String × String)) (k : String) :
    dictLookup (pyMergeDicts a b) k
      = match dictLookup b k with
        | some v => some v
        | none => dictLookup a k := by
  unfold pyMergeDicts dictLookup
  rw [List.find?_append, List.find?_map]
  have hpred : ((fun kv : String × String => decide (kv.1 = k)) ∘
      (fun kv : String × String =>
        (kv.1, match b.find? (fun kv2 => kv2.1 = kv.1) with
               | some kv2 => kv2.2
               | none => kv.2)))
      = fun kv : String × String => decide (kv.1 = k) := rfl
  rw [hpred]
  cases ha : a.find? (fun kv => decide (kv.1 = k)) with
  | none =>
    simp only [Option.map_none', Option.none_or]
    have hfk : ((b.filter (fun kv =>
        (a.find? (fun kv2 => kv2.1 = kv.1)).isNone)).find?
          (fun kv => decide (kv.1 = k))) =
        b.find? (fun kv => decide (kv.1 = k)) := by
      refine find?_filter_of_imp _ _ b ?_
      intro x hx
      have hxk : x.1 = k := by simpa using hx
      rw [hxk, ha]
      rfl
    rw [hfk]
    cases hb : b.find? (fun kv => decide (kv.1 = k)) <;> simp [hb]
  | some kv0 =>
    have hk0 : kv0.1 = k := by simpa using List.find?_some ha
    simp only [Option.map_some', Option.or_some]
    rw [hk0]
    cases hb : b.find? (fun kv2 => decide (kv2.1 = k)) with
    | none => simp [hb]
    | some kv2 => simp [hb]

/-- Characterization of a successful `process_query`. -/
lemma processQuery_ok {query : String}
    {filters : Option (List (String × String))}
    {top_k : Option Nat} {req : QueryRequest}
    (hok : processQuery query filters top_k = .ok req) :
    req = { query := normalizeQuery query
            filters := mergedFilters query filters
            top_k := resolveTopK top_k } := by
  unfold processQuery at hok
  split at hok
  · exact absurd hok (by simp)
  · split at hok
    · injection hok with h
      exact h.symm
    · exact absurd hok (by simp)

/-- Counterexample to C4 as stated: for query `"get payment status"` with the
explicit caller filter `{"method": "POST"}`, the merged filters carry the
auto-detected `"GET"` — the auto-detected value overwrites the explicit
caller value, because the code builds `{**caller, **auto}`. -/
theorem query_filter_merge_counterexample :
    processQuery "get payment status" (some [("method", "POST")]) none
      = .ok { query := "get payment status"
              filters := some [("method", "GET"), ("tags", "payment")]
              top_k := 5 } ∧
    dictLookup [("method", "GET"), ("tags", "payment")] "method"
      ≠ some "POST" :=
  ⟨rfl, by decide⟩

/-- C4 (amended): whenever `process_query` succeeds, a filter key set by the
auto-detection resolves to the auto-detected value — on a key collision the
auto-detected filter wins and the explicit caller value is discarded — and a
key the auto-detection did not set resolves to the caller value. -/
theorem query_filter_merge_spec (query : String)
    (filters : Option (List (String × String))) (top_k : Option Nat)
    (req : QueryRequest)
    (hok : processQuery query filters top_k = .ok req) (k : String) :
    req.filterLookup k
      = match dictLookup (extractFilters (normalizeQuery query)) k with
        | some v => some v
        | none => dictLookup (filters.getD []) k := by
  have hreq := processQuery_ok hok
  subst hreq
  rw [← dictLookup_pyMergeDicts]
  show (match mergedFilters query filters with
        | some f => dictLookup f k
        | none => none)
      = dictLookup (pyMergeDicts (filters.getD [])
          (extractFilters (normalizeQuery query))) k
  unfold mergedFilters
  split
  · rename_i f hsome
    split at hsome
    · exact absurd hsome (by simp)
    · injection hsome with h
      rw [← h]
  · rename_i hnone
    split at hnone
    · rename_i hempty
      rw [List.isEmpty_iff.mp hempty]
      rfl
    · exact absurd hnone (by simp)

/-- The request produced for the witness query. -/
def reqW : QueryRequest :=
  { query := "get payment status"
    filters := some [("method", "GET"), ("tags", "payment")]
    top_k := 5 }

/-- Witness for C4 (amended) at the counterexample input: `process_query`
succeeds and the merged `"method"` filter is the auto-detected `"GET"`. -/
theorem query_filter_merge_spec_witness :
    processQuery "get payment status" (some [("method", "POST")]) none
      = .ok reqW ∧
    reqW.filterLookup "method" = some "GET" :=
  ⟨rfl, (query_filter_merge_spec "get payment status"
    (some [("method", "POST")]) none reqW rfl "method").trans rfl⟩

end QueryProcessor

/-! ## Spec validator (src/validation/spec_validator.py) -/

/-- The decomposed command produced by `CurlValidator.get_curl_components`:
`method` is always a string (default `"GET"`), `headers` collects the
`-H`/`--header` values and `body` the first `-d`/`--data`/`--data-raw` value
when one is present.  The `url` field models `components["url"]` for
decompositions in which a URL-shaped token was found; when none is found the
stored value is `None` and `SpecValidator._validate_path` raises a
`TypeError` before `validate` returns a triple, so those inputs fall outside
every claim about the returned values. -/
structure CurlComponents where
  method : String
  url : String
  headers : List String
  body : Option String
  deriving DecidableEq

namespace SpecValidator

/-- `re.sub(r"\x7b[^\x7d]+\x7d", "", path)`: remove every brace group with a
nonempty brace-free body, scanning left to right (a group must close; an
unclosed or empty `\x7b\x7d` group is left in place and scanning resumes at
the next character). -/
def stripBracesChAux : Nat → List Char → List Char
  | _, [] => []
  | 0, cs => cs
  | fuel + 1, c :: rest =>
    if c = '{' then
      let body := rest.takeWhile (fun d => d ≠ '}')
      if body.isEmpty then c :: stripBracesChAux fuel rest
      else if (rest.drop body.length).head? = some '}' then
        stripBracesChAux fuel (rest.drop (body.length + 1))
      else c :: stripBracesChAux fuel rest
    else c :: stripBracesChAux fuel rest

/-- The scan of `stripBracesChAux` consumes at least one character per step,
so fuel equal to the input length always suffices (the fuel-exhausted branch
is unreachable); fuel only makes the recursion structural. -/
def stripBracesCh (cs : List Char) : List Char :=
  stripBracesChAux cs.length cs

/-- `re.sub` on strings. -/
def stripBraces (s : String) : String :=
  (stripBracesCh s.toList).asString

/-- `_validate_method`: case-insensitive equality via `.upper()`. -/
def validateMethod (c : CurlComponents) (ch : EndpointChunk) : Bool :=
  pyUpper c.method == pyUpper ch.metadata.method

/-- `_validate_path`: the endpoint path with `\x7b...\x7d` groups stripped,
or the raw path, must be a substring of the command URL. -/
def validatePath (c : CurlComponents) (ch : EndpointChunk) : Bool :=
  pyContains c.url (stripBraces ch.metadata.endpoint) ||
    pyContains c.url ch.metadata.endpoint

/-- `_validate_auth`: auto-pass when auth is not required, else an
`authorization`-prefixed header (lower-cased comparison) must exist. -/
def validateAuth (c : CurlComponents) (ch : EndpointChunk) : Bool :=
  if !ch.metadata.requires_auth then true
  else c.headers.any (fun h => pyStartsWith (pyLower h) "authorization")

/-- `_validate_content_type`: auto-pass when no (truthy) body, else a
`content-type`-prefixed header must exist. -/
def validateContentType (c : CurlComponents) (_ch : EndpointChunk) : Bool :=
  match c.body with
  | none => true
  | some b =>
    if b = "" then true
    else c.headers.any (fun h => pyStartsWith (pyLower h) "content-type")

/-- The `combined_text` local of `_validate_required_params`:
the f-string concatenation of url, space-joined headers and body.  A `None` body renders as the literal
`"None"`, as in a Python f-string. -/
def combinedText (c : CurlComponents) : String :=
  c.url ++ " " ++ pyJoinSpace c.headers ++ " " ++
    (match c.body with | some b => b | none => "None")

/-- The `required_params` local of `_validate_required_params`: names of the
(truthy-)required parameters, in order. -/
def requiredParamNames (ch : EndpointChunk) : List String :=
  (ch.parameters.filter (fun p => p.required)).map (fun p => p.name)

/-- One required parameter counts as found when its bare name, upper-cased
`<NAME>` placeholder or upper-cased `$\x7bNAME\x7d` placeholder occurs in the
combined text. -/
def paramFound (c : CurlComponents) (name : String) : Bool :=
  pyContains (combinedText c) name ||
  pyContains (combinedText c) ("<" ++ pyUpper name ++ ">") ||
  pyContains (combinedText c) ("$\x7b" ++ pyUpper name ++ "\x7d")

/-- `_validate_required_params`: fraction of required parameters found; 1.0
when the chunk declares no required parameter. -/
def validateRequiredParams (c : CurlComponents) (ch : EndpointChunk) : ℚ :=
  if (requiredParamNames ch).isEmpty then 1
  else ((requiredParamNames ch).countP (paramFound c) : ℚ) /
    ((requiredParamNames ch).length : ℚ)

/-- The four warning messages, in emission order. -/
def msgMethod (c : CurlComponents) (ch : EndpointChunk) : String :=
  "HTTP 메서드 불일치: cURL=" ++ c.method ++ ", 명세=" ++ ch.metadata.method

def msgPath (ch : EndpointChunk) : String :=
  "엔드포인트 경로 불일치: URL에 \x27" ++ ch.metadata.endpoint ++
    "\x27가 포함되지 않았습니다"

def msgAuth : String :=
  "인증이 필요한 엔드포인트이지만 Authorization 헤더가 없습니다"

def msgContentType : String :=
  "요청 바디가 있지만 Content-Type 헤더가 없습니다"

/-- `validate` (lines 16-70): four warn-and-score checks, a fifth scaled
score-only check, and `valid = (warnings == [])`. -/
def validate (c : CurlComponents) (ch : EndpointChunk) :
    Bool × List String × ℚ :=
  let warnings0 : List String := []
  let score0 : ℚ := 0
  let method_match := validateMethod c ch
  let warnings1 :=
    if method_match then warnings0 else warnings0 ++ [msgMethod c ch]
  let score1 := if method_match then score0 + 0.3 else score0
  let path_match := validatePath c ch
  let warnings2 :=
    if path_match then warnings1 else warnings1 ++ [msgPath ch]
  let score2 := if path_match then score1 + 0.2 else score1
  let auth_valid := validateAuth c ch
  let warnings3 :=
    if auth_valid then warnings2 else warnings2 ++ [msgAuth]
  let score3 := if auth_valid then score2 + 0.2 else score2
  let content_type_valid := validateContentType c ch
  let warnings4 :=
    if content_type_valid then warnings3 else warnings3 ++ [msgContentType]
  let score4 := if content_type_valid then score3 + 0.15 else score3
  let params_completeness := validateRequiredParams c ch
  let score5 := score4 + params_completeness * 0.15
  let is_valid := warnings4.isEmpty
  (is_valid, warnings4, score5)

end SpecValidator

namespace SpecValidator

/-- Structural characterization of `validate`: explicit warning list and
score decomposition. -/
lemma validate_eq (c : CurlComponents) (ch : EndpointChunk) :
    validate c ch =
      ((validateMethod c ch && validatePath c ch && validateAuth c ch &&
          validateContentType c ch),
        ((if validateMethod c ch then [] else [msgMethod c ch]) ++
         (if validatePath c ch then [] else [msgPath ch]) ++
         (if validateAuth c ch then [] else [msgAuth]) ++
         (if validateContentType c ch then [] else [msgContentType])),
        ((if validateMethod c ch then (0.3 : ℚ) else 0) +
         (if validatePath c ch then (0.2 : ℚ) else 0) +
         (if validateAuth c ch then (0.2 : ℚ) else 0) +
         (if validateContentType c ch then (0.15 : ℚ) else 0) +
         validateRequiredParams c ch * 0.15)) := by
  unfold validate
  cases hm : validateMethod c ch <;> cases hp : validatePath c ch <;>
    cases ha : validateAuth c ch <;> cases hct : validateContentType c ch <;>
      simp [hm, hp, ha, hct] <;> ring

/-- The fraction of the fifth check always lies in [0, 1]. -/
lemma validateRequiredParams_bounds (c : CurlComponents)
    (ch : EndpointChunk) :
    0 ≤ validateRequiredParams c ch ∧ validateRequiredParams c ch ≤ 1 := by
  unfold validateRequiredParams
  by_cases hemp : (requiredParamNames ch).isEmpty
  · rw [if_pos hemp]
    norm_num
  · rw [if_neg hemp]
    have hlenpos : 0 < (requiredParamNames ch).length := by
      cases hcase : requiredParamNames ch with
      | nil => rw [hcase] at hemp; simp at hemp
      | cons a l => simp [hcase]
    refine ⟨by positivity, ?_⟩
    rw [div_le_one (by exact_mod_cast hlenpos)]
    exact_mod_cast List.countP_le_length _

end SpecValidator

section ClaimC5

open SpecValidator

/-- The §8-style chunk with one required parameter that the command omits. -/
def chunkVC : EndpointChunk :=
  { chunk_id := "POST_/pay"
    method := "POST"
    path := "/pay"
    parameters := [{ name := "payment_id", in_ := "query", required := true }]
    responses := []
    metadata :=
      { endpoint := "/pay"
        method := "POST"
        tags := ["payment"]
        requires_auth := false
        content_type := some "application/json" } }

/-- A command matching `chunkVC` in method and path but omitting the required
parameter. -/
def compsCE : CurlComponents :=
  { method := "POST"
    url := "https://api.test/pay"
    headers := []
    body := none }

/-- Counterexample to C5 as stated: for `compsCE` against `chunkVC` the first
four checks pass and the fifth (required-parameter coverage) fails with
fraction 0, yet `validate` returns `valid = true` with an empty warning
list — the required-parameter check never appends a warning, so `valid` is
not a strict AND of all five checks. -/
theorem validator_valid_counterexample :
    (validate compsCE chunkVC).1 = true ∧
    (validate compsCE chunkVC).2.1 = [] ∧
    validateRequiredParams compsCE chunkVC = 0 := by
  refine ⟨by decide, by decide, ?_⟩
  have h1 : (requiredParamNames chunkVC).countP (paramFound compsCE) = 0 :=
    by decide
  have h2 : (requiredParamNames chunkVC).length = 1 := by decide
  unfold validateRequiredParams
  rw [if_neg (by decide), h1, h2]
  norm_num

/-- C5 (amended): `validate` runs four warn-and-score checks (method 0.30,
path containment 0.20, auth header 0.20, content-type header 0.15) — each
failing one both appends its warning and withholds its share — plus a fifth,
score-only check contributing `fraction * 0.15` that never warns; `valid` is
true exactly when the warning list is empty, which is a strict AND of the
first four checks only. -/
theorem validator_structure_spec (c : CurlComponents) (ch : EndpointChunk) :
    ((validate c ch).1 = true ↔ (validate c ch).2.1 = []) ∧
    ((validate c ch).1 = true ↔
      (validateMethod c ch = true ∧ validatePath c ch = true ∧
        validateAuth c ch = true ∧ validateContentType c ch = true)) ∧
    (validate c ch).2.2 =
      (if validateMethod c ch then (0.3 : ℚ) else 0) +
      (if validatePath c ch then (0.2 : ℚ) else 0) +
      (if validateAuth c ch then (0.2 : ℚ) else 0) +
      (if validateContentType c ch then (0.15 : ℚ) else 0) +
      validateRequiredParams c ch * 0.15 ∧
    (validate c ch).2.1.length =
      ((if validateMethod c ch then 0 else 1) +
       (if validatePath c ch then 0 else 1) +
       (if validateAuth c ch then 0 else 1) +
       (if validateContentType c ch then 0 else 1)) := by
  rw [validate_eq]
  cases hm : validateMethod c ch <;> cases hp : validatePath c ch <;>
    cases ha : validateAuth c ch <;> cases hct : validateContentType c ch <;>
      simp

end ClaimC5

section ClaimC9

open SpecValidator

/-- C9: for every decomposed command and endpoint chunk the completeness
score returned by `validate` lies in [0, 1], and whenever `valid = true` the
score is at least 0.85 (the four pass/fail checks contribute
0.30 + 0.20 + 0.20 + 0.15 and the required-parameter fraction adds a
non-negative amount). -/
theorem validator_completeness_bounds (c : CurlComponents)
    (ch : EndpointChunk) :
    0 ≤ (validate c ch).2.2 ∧ (validate c ch).2.2 ≤ 1 ∧
    ((validate c ch).1 = true → (0.85 : ℚ) ≤ (validate c ch).2.2) := by
  have hb := validateRequiredParams_bounds c ch
  rw [validate_eq]
  cases hm : validateMethod c ch <;> cases hp : validatePath c ch <;>
    cases ha : validateAuth c ch <;> cases hct : validateContentType c ch <;>
      simp <;> constructor <;> try constructor
  all_goals first
    | linarith [hb.1, hb.2]
    | (intro h; linarith [hb.1, hb.2])

/-- A fully compliant command for the C9 witness. -/
def compsOK : CurlComponents :=
  { method := "POST"
    url := "https://api.test/pay"
    headers := ["Authorization: Bearer x", "Content-Type: application/json"]
    body := some "amount=10" }

/-- A chunk requiring auth with no required parameters, matched by
`compsOK`. -/
def chunkOK : EndpointChunk :=
  { chunk_id := "POST_/pay"
    method := "POST"
    path := "/pay"
    parameters := []
    responses := []
    metadata :=
      { endpoint := "/pay"
        method := "POST"
        tags := ["payment"]
        requires_auth := true
        content_type := some "application/json" } }

/-- Witness for C9: `compsOK` against `chunkOK` validates to `valid = true`
and the theorem yields a completeness score of at least 0.85. -/
theorem validator_completeness_bounds_witness :
    (validate compsOK chunkOK).1 = true ∧
    (0.85 : ℚ) ≤ (validate compsOK chunkOK).2.2 :=
  ⟨by decide,
    (validator_completeness_bounds compsOK chunkOK).2.2 (by decide)⟩

end ClaimC9

/-! ## Reranker (src/retrieval/reranker.py) -/

namespace LLMReranker

/-- Value of a maximal run of decimal digits (Python `int(...)`). -/
def natOfDigits (ds : List Char) : Nat :=
  ds.foldl (fun acc c => acc * 10 + (c.toNat - ('0').toNat)) 0

/-- The `\s*(\d+)` tail of the primary pattern: skip whitespace, then require
at least one digit (whitespace and digits are disjoint, so the greedy `\s*`
never backtracks). -/
def digitsAfterWs (cs : List Char) : Option Nat :=
  let ds := (cs.dropWhile Char.isWhitespace).takeWhile Char.isDigit
  if ds.isEmpty then none else some (natOfDigits ds)

/-- The literal marker of the primary regex of `_parse_ranking`. -/
def marker : List Char := "가장 관련있는 번호:".toList

/-- `re.search` for `가장 관련있는 번호:\s*(\d+)`: the captured number at the
first position where the whole pattern matches. -/
def searchMarkerNum : List Char → Option Nat
  | [] => none
  | c :: cs =>
    if marker.isPrefixOf (c :: cs) then
      match digitsAfterWs ((c :: cs).drop marker.length) with
      | some n => some n
      | none => searchMarkerNum cs
    else searchMarkerNum cs

/-- First match of `re.findall(r"\d+", text)`: the first maximal digit run. -/
def firstNumber (cs : List Char) : Option Nat :=
  let ds := (cs.dropWhile (fun c => !c.isDigit)).takeWhile Char.isDigit
  if ds.isEmpty then none else some (natOfDigits ds)

/-- Python `range(1, K + 1)` as a list. -/
def oneTo (K : Nat) : List Nat := (List.range K).map (fun i => i + 1)

/-- The ranking built for an in-range top choice: the choice first, then the
remaining positions in original order. -/
def mkRanking (topChoice K : Nat) : List Nat :=
  topChoice :: (oneTo K).filter (fun i => i ≠ topChoice)

/-- The `findall` fallback branch of `_parse_ranking`. -/
def parseRankingFallback (cs : List Char) (numResults : Nat) : List Nat :=
  match firstNumber cs with
  | some n =>
    if 1 ≤ n ∧ n ≤ numResults then mkRanking n numResults
    else oneTo numResults
  | none => oneTo numResults

/-- `_parse_ranking` (lines 151-185): primary pattern first (falling through
to `findall` when its number is out of range), identity ranking last. -/
def parseRanking (llmOutput : String) (numResults : Nat) : List Nat :=
  match searchMarkerNum llmOutput.toList with
  | some n =>
    if 1 ≤ n ∧ n ≤ numResults then mkRanking n numResults
    else parseRankingFallback llmOutput.toList numResults
  | none => parseRankingFallback llmOutput.toList numResults

/-- Python list indexing `lst[i]` with negative-index wrap-around; `none`
models an `IndexError`. -/
def pyIndex {α : Type} (l : List α) (i : Int) : Option α :=
  if 0 ≤ i then l.get? i.toNat
  else if 0 ≤ (l.length : Int) + i then l.get? ((l.length : Int) + i).toNat
  else none

/-- `_apply_ranking` (lines 187-209): `rank_position` enumerates the ranking
from 1; positions larger than the result count are skipped; the `rank` of each
taken result is rewritten to its new position (the in-place mutation is
modelled by functional record update — aliasing only matters for rankings
with duplicate positions, which `_parse_ranking` never produces).  `none`
models the `IndexError` raised by `results[original_position - 1]` when
`original_position` is 0 on an empty result list. -/
def applyRankingAux (results : List RetrievalResult) :
    Nat → List Nat → Option (List RetrievalResult)
  | _, [] => some []
  | pos, o :: rest =>
    if o ≤ results.length then
      match pyIndex results ((o : Int) - 1) with
      | some r =>
        (applyRankingAux results (pos + 1) rest).map
          (fun tail => { r with rank := pos } :: tail)
      | none => none
    else applyRankingAux results (pos + 1) rest

/-- `_apply_ranking`, enumeration starting at 1. -/
def applyRanking (results : List RetrievalResult) (ranking : List Nat) :
    Option (List RetrievalResult) :=
  applyRankingAux results 1 ranking

/-- Outcome of the `ollama.chat` call together with the
`response["message"]["content"]` access: a reply string, a
`ConnectionError`, or any other exception. -/
inductive ChatOutcome
  | reply (text : String)
  | connectionError
  | otherError

/-- The only exception `rerank` lets escape. -/
inductive RerankError
  | ollamaConnection
  deriving DecidableEq

/-- `rerank` (lines 26-91), with the model-call outcome as an explicit
parameter: empty and singleton inputs return immediately without a model
call; a reply is parsed and applied and the first `top_n` reordered results
returned; any exception inside the `try` block (including an `IndexError`
from `_apply_ranking`) falls back to the original `top_n`-truncated order —
except a `ConnectionError`, which is re-raised as `OllamaConnectionError`
and propagates. -/
def rerank (chat : ChatOutcome) (_query : String)
    (results : List RetrievalResult) (top_n : Nat) :
    Except RerankError (List RetrievalResult) :=
  if results.isEmpty then .ok []
  else if results.length = 1 then .ok results
  else
    match chat with
    | .reply text =>
      match applyRanking results (parseRanking text results.length) with
      | some reranked => .ok (reranked.take top_n)
      | none => .ok (results.take top_n)
    | .connectionError => .error .ollamaConnection
    | .otherError => .ok (results.take top_n)

end LLMReranker

section ClaimC3

open LLMReranker

/-- A second concrete retrieval result. -/
def resW2 : RetrievalResult :=
  { chunk := VectorSearcher.reconstructChunk "GET_/pay" metaW "d"
    similarity_score := 3/4
    rank := 2 }

/-- Counterexample to C3 as stated: with two results, a `ConnectionError`
during the model call is not swallowed — `rerank` re-raises it as
`OllamaConnectionError` instead of returning the original top-`top_n`
results. -/
theorem rerank_counterexample :
    rerank .connectionError "query" [resW, resW2] 2
      = .error .ollamaConnection ∧
    rerank .connectionError "query" [resW, resW2] 2
      ≠ .ok [resW, resW2] := by
  refine ⟨rfl, ?_⟩
  intro h
  simp [rerank] at h

/-- C3 (amended): for every query, result list of length at least 2 and
`top_n`, an exception other than a connection failure during the model call
or parsing is swallowed and the first `top_n` results are returned in their
original order; a `ConnectionError`, however, propagates out of `rerank` as
`OllamaConnectionError`. -/
theorem rerank_error_spec (query : String)
    (results : List RetrievalResult) (top_n : Nat)
    (h2 : 2 ≤ results.length) :
    rerank .otherError query results top_n = .ok (results.take top_n) ∧
    rerank .connectionError query results top_n
      = .error .ollamaConnection := by
  have hne : results.isEmpty = false := by
    cases results with
    | nil => simp at h2
    | cons a l => rfl
  have hlen : ¬results.length = 1 := by omega
  constructor <;> simp [rerank, hne, hlen]

/-- Witness for C3 (amended) on a concrete two-result list. -/
theorem rerank_error_spec_witness :
    2 ≤ ([resW, resW2] : List RetrievalResult).length ∧
    rerank .otherError "query" [resW, resW2] 1
      = .ok ([resW, resW2].take 1) ∧
    rerank .connectionError "query" [resW, resW2] 1
      = .error .ollamaConnection :=
  ⟨by decide,
    (rerank_error_spec "query" [resW, resW2] 1 (by decide)).1,
    (rerank_error_spec "query" [resW, resW2] 1 (by decide)).2⟩

end ClaimC3

namespace LLMReranker

lemma oneTo_nodup (K : Nat) : (oneTo K).Nodup :=
  (List.nodup_range K).map (fun a b h => by omega)

lemma mem_oneTo {n K : Nat} : n ∈ oneTo K ↔ 1 ≤ n ∧ n ≤ K := by
  constructor
  · intro h
    rcases List.mem_map.mp h with ⟨i, hi, rfl⟩
    have := List.mem_range.mp hi
    omega
  · intro h
    refine List.mem_map.mpr ⟨n - 1, List.mem_range.mpr (by omega), by omega⟩

lemma oneTo_length (K : Nat) : (oneTo K).length = K := by
  simp [oneTo]

lemma mkRanking_perm {n K : Nat} (h1 : 1 ≤ n) (h2 : n ≤ K) :
    (mkRanking n K).Perm (oneTo K) := by
  have hmem : n ∈ oneTo K := mem_oneTo.mpr ⟨h1, h2⟩
  have hnd := oneTo_nodup K
  unfold mkRanking
  have hpred : (fun i : Nat => decide (i ≠ n)) = (fun i : Nat => i != n) := by
    funext i
    by_cases h : i = n <;> simp [h]
  rw [show ((oneTo K).filter (fun i => i ≠ n)) = (oneTo K).erase n from by
    rw [hpred]
    exact (hnd.erase_eq_filter n).symm]
  exact (List.perm_cons_erase hmem).symm

/-- Whatever the reply text, `_parse_ranking` returns a permutation of
`1..K`. -/
lemma parseRanking_perm (text : String) (K : Nat) :
    (parseRanking text K).Perm (oneTo K) := by
  unfold parseRanking parseRankingFallback
  repeat' split
  all_goals first
    | (rename_i h
       exact mkRanking_perm h.1 h.2)
    | exact List.Perm.refl _

/-- A throwaway result used as the (never-reached) `getD` default. -/
def dummyResult : RetrievalResult :=
  { chunk :=
      { chunk_id := ""
        method := ""
        path := ""
        responses := []
        metadata := { endpoint := "", method := "" } }
    similarity_score := 0
    rank := 0 }

/-- The exception-free unfolding of `_apply_ranking` on in-range rankings. -/
def applyPure (results : List RetrievalResult) :
    Nat → List Nat → List RetrievalResult
  | _, [] => []
  | pos, o :: rest =>
    { results.getD (o - 1) dummyResult with rank := pos } ::
      applyPure results (pos + 1) rest

lemma applyRankingAux_eq_applyPure (results : List RetrievalResult)
    (ranking : List Nat)
    (h : ∀ o ∈ ranking, 1 ≤ o ∧ o ≤ results.length) :
    ∀ pos, applyRankingAux results pos ranking
      = some (applyPure results pos ranking) := by
  induction ranking with
  | nil => intro pos; rfl
  | cons o rest ih =>
    intro pos
    obtain ⟨h1, h2⟩ := h o (List.mem_cons_self _ _)
    unfold applyRankingAux
    rw [if_pos h2]
    have hidx : pyIndex results ((o : Int) - 1)
        = some (results.getD (o - 1) dummyResult) := by
      unfold pyIndex
      rw [if_pos (by omega : (0 : Int) ≤ (o : Int) - 1)]
      have htn : ((o : Int) - 1).toNat = o - 1 := by omega
      rw [htn]
      cases hg : results.get? (o - 1) with
      | none =>
        have := List.get?_eq_none.mp hg
        omega
      | some r =>
        rw [List.getD_eq_get?, hg]
        rfl
    rw [hidx, ih (fun u hu => h u (List.mem_cons_of_mem _ hu)) (pos + 1)]
    rfl

lemma applyPure_length (results : List RetrievalResult) (ranking : List Nat) :
    ∀ pos, (applyPure results pos ranking).length = ranking.length := by
  induction ranking with
  | nil => intro pos; rfl
  | cons o rest ih => intro pos; simp [applyPure, ih]

/-- Chunk and similarity of a result, with the (rewritten) rank forgotten. -/
def dropRank (r : RetrievalResult) : EndpointChunk × ℚ :=
  (r.chunk, r.similarity_score)

lemma applyPure_map_rank (results : List RetrievalResult)
    (ranking : List Nat) :
    ∀ pos, (applyPure results pos ranking).map (fun r => r.rank)
      = List.range' pos ranking.length := by
  induction ranking with
  | nil => intro pos; rfl
  | cons o rest ih =>
    intro pos
    rw [show (o :: rest).length = rest.length + 1 from rfl, List.range'_succ]
    simp [applyPure, ih]

lemma applyPure_map_dropRank (results : List RetrievalResult)
    (ranking : List Nat) :
    ∀ pos, (applyPure results pos ranking).map dropRank
      = ranking.map (fun o => dropRank (results.getD (o - 1) dummyResult)) := by
  induction ranking with
  | nil => intro pos; rfl
  | cons o rest ih =>
    intro pos
    simp only [applyPure, List.map_cons, ih]
    rfl

lemma range_map_getD (l : List RetrievalResult) :
    (List.range l.length).map (fun i => l.getD i dummyResult) = l := by
  induction l with
  | nil => rfl
  | cons hd tl ih =>
    rw [List.length_cons, List.range_succ_eq_map, List.map_cons,
      List.map_map]
    refine congrArg₂ _ rfl ?_
    calc (List.range tl.length).map
          ((fun i => (hd :: tl).getD i dummyResult) ∘ Nat.succ)
        = (List.range tl.length).map (fun i => tl.getD i dummyResult) := by
          refine List.map_congr_left (fun i _ => ?_)
          simp [List.getD]
      _ = tl := ih

lemma oneTo_map_getD (l : List RetrievalResult) :
    (oneTo l.length).map
      (fun o => dropRank (l.getD (o - 1) dummyResult)) = l.map dropRank := by
  unfold oneTo
  rw [List.map_map]
  have hfun : ((fun o => dropRank (l.getD (o - 1) dummyResult)) ∘
      (fun i => i + 1)) = fun i => dropRank (l.getD i dummyResult) := by
    funext i
    simp
  rw [hfun]
  have h2 : (List.range l.length).map
      (fun i => dropRank (l.getD i dummyResult))
      = ((List.range l.length).map (fun i => l.getD i dummyResult)).map
          dropRank := by
    rw [List.map_map]
    rfl
  rw [h2, range_map_getD]

lemma oneTo_eq_range' (K : Nat) : oneTo K = List.range' 1 K := by
  rw [List.range'_eq_map_range]
  exact List.map_congr_left (fun i _ => by omega)

end LLMReranker

section ClaimC10

open LLMReranker

/-- C10: for every model reply text and result list of length K, the ranking
produced by `_parse_ranking` is a permutation of `1..K`, and the reordered
list built by `_apply_ranking` (before top-N truncation) raises nothing and
contains exactly the original K results, each exactly once (their chunks and
similarities a permutation of the originals), with rank fields renumbered to
the consecutive positions `1..K`. -/
theorem reranker_parse_apply_spec (llmOutput : String)
    (results : List RetrievalResult) :
    (parseRanking llmOutput results.length).Perm (oneTo results.length) ∧
    ∃ out, applyRanking results (parseRanking llmOutput results.length)
        = some out ∧
      out.length = results.length ∧
      (out.map dropRank).Perm (results.map dropRank) ∧
      out.map (fun r => r.rank) = oneTo results.length := by
  have hperm := parseRanking_perm llmOutput results.length
  have hbound : ∀ o ∈ parseRanking llmOutput results.length,
      1 ≤ o ∧ o ≤ results.length := fun o ho =>
    mem_oneTo.mp (hperm.mem_iff.mp ho)
  have hlen : (parseRanking llmOutput results.length).length
      = results.length := by
    rw [hperm.length_eq, oneTo_length]
  refine ⟨hperm,
    applyPure results 1 (parseRanking llmOutput results.length),
    applyRankingAux_eq_applyPure results _ hbound 1, ?_, ?_, ?_⟩
  · rw [applyPure_length]
    exact hlen
  · rw [applyPure_map_dropRank]
    refine (hperm.map _).trans ?_
    rw [oneTo_map_getD]
  · rw [applyPure_map_rank, hlen, oneTo_eq_range']

end ClaimC10
